import Mathlib

/- Verification of the geometric / net-classification core of the
ratcam-illuminator board generator (`illuminator.py`, `synthesize.py`).
Python floats are modelled as real numbers, so numeric laws are proved
exactly; the KiCad board object (spec section 6) is out of scope and the
routing strategies are modelled on the data they compute. -/

open Real

/-- Component name start for LEDs (`LED_PREFIX` in the sources). -/
def LED_PREFIX_STR : String := "LED"

/-- Component name start for resistors (`RESISTOR_PREFIX` in the sources). -/
def RESISTOR_PREFIX_STR : String := "R"

/-- Python's `str.startswith`, on the character sequences of the strings. -/
def startswith (s pre : String) : Bool := pre.data.isPrefixOf s.data

/-- The `Terminal` namedtuple of `synthesize.py` (line 54). -/
structure Terminal where
  module : String
  pad : String
  deriving DecidableEq, Repr

/-- The net type constants of `synthesize.py` (lines 58-61), as an enum. -/
inductive NetType where
  | ledStrip
  | power
  | ground
  | unknown
  deriving DecidableEq, Repr

/-- One iteration of the flag loop in `Illuminator.guess_net_type`
(lines 132-136): the pair is `(all_leds, all_resistors)`. -/
def guess_flags_step (fl : Bool × Bool) (t : Terminal) : Bool × Bool :=
  if startswith t.module LED_PREFIX_STR then (fl.1, false)
  else if startswith t.module RESISTOR_PREFIX_STR then (false, fl.2)
  else fl

/-- The `(all_leds, all_resistors)` flags after the loop of
`Illuminator.guess_net_type`, both initialised to `True`. -/
def guess_flags (terminals : List Terminal) : Bool × Bool :=
  terminals.foldl guess_flags_step (true, true)

/-- `Illuminator.guess_net_type` (`synthesize.py` lines 129-155). -/
def guess_net_type (terminals : List Terminal) : NetType :=
  let fl := guess_flags terminals
  let all_leds := fl.1
  let all_resistors := fl.2
  if all_leds ≠ all_resistors then
    if all_resistors then NetType.power
    else if terminals.length ≠ 2 then NetType.ground
    else if (terminals.getD 0 ⟨"", ""⟩).pad = (terminals.getD 1 ⟨"", ""⟩).pad then
      NetType.ground
    else NetType.ledStrip
  else if !all_leds && terminals.length == 2 then NetType.ledStrip
  else NetType.unknown

/-- Modelled from the spec: claim C1's literal reading of the section 4.3
decision table, with `allLEDs` true iff every terminal's component is
LED-named, `allResistors` true iff every terminal's component is
resistor-named, and a composition counted as mixed iff it is neither purely
LEDs nor purely resistors. -/
def guess_net_type_spec_table (terminals : List Terminal) : NetType :=
  let allLEDs := terminals.all (fun t => startswith t.module LED_PREFIX_STR)
  let allResistors := terminals.all (fun t => startswith t.module RESISTOR_PREFIX_STR)
  let mixed := !allLEDs && !allResistors
  if allResistors && !allLEDs then NetType.power
  else if mixed && terminals.length != 2 then NetType.ground
  else if mixed && terminals.length == 2 then
    if (terminals.getD 0 ⟨"", ""⟩).pad = (terminals.getD 1 ⟨"", ""⟩).pad then NetType.ground
    else NetType.ledStrip
  else if (!allLEDs && !allResistors) && terminals.length == 2 then NetType.ledStrip
  else NetType.unknown

/-- The decision table with the flag semantics the code actually computes:
`all_leds` stays true unless some terminal is resistor-named (and not
LED-named), `all_resistors` stays true unless some terminal is LED-named;
terminals matching neither name clear neither flag. -/
def guess_net_type_flag_table (terminals : List Terminal) : NetType :=
  let all_leds := terminals.all
    (fun t => startswith t.module LED_PREFIX_STR || !startswith t.module RESISTOR_PREFIX_STR)
  let all_resistors := terminals.all (fun t => !startswith t.module LED_PREFIX_STR)
  if all_leds ≠ all_resistors then
    if all_resistors then NetType.power
    else if terminals.length ≠ 2 then NetType.ground
    else if (terminals.getD 0 ⟨"", ""⟩).pad = (terminals.getD 1 ⟨"", ""⟩).pad then
      NetType.ground
    else NetType.ledStrip
  else if !all_leds && terminals.length == 2 then NetType.ledStrip
  else NetType.unknown

/-- Decimal digit characters of a natural number, most significant digit
first, as produced by Python's `%d` formatting. -/
def natChars (n : ℕ) : List Char :=
  if n = 0 then ['0'] else (Nat.digits 10 n).reverse.map Nat.digitChar

/-- Decimal string of a natural number (Python `'%d' % n`). -/
def natStr (n : ℕ) : String := String.mk (natChars n)

/-- `Illuminator.get_resistor_name` in `illuminator.py`: `'R%d' % line_idx`. -/
def get_resistor_name (line_idx : ℕ) : String := RESISTOR_PREFIX_STR ++ natStr line_idx

/-- `Illuminator.get_led_name` in `illuminator.py`:
`'LED%d' % (line_idx * n_leds_per_line + led_idx)`. -/
def get_led_name (n_leds_per_line line_idx led_idx : ℕ) : String :=
  LED_PREFIX_STR ++ natStr (line_idx * n_leds_per_line + led_idx)

/-- A 2-D point (the host's `wxPoint`), with real coordinates standing in
for the source's floats / integer nanometres. -/
structure Pt where
  x : ℝ
  y : ℝ

/-- `ortho` (both sources): the angle tangent to the ring. -/
noncomputable def ortho (a : ℝ) : ℝ := a - π / 2

/-- `to_cartesian` (`synthesize.py` lines 70-71). -/
noncomputable def to_cartesian (c : Pt) (angle r : ℝ) : Pt :=
  ⟨c.x + r * Real.cos angle, c.y + r * Real.sin angle⟩

/-- `to_polar` (`synthesize.py` lines 73-79). -/
noncomputable def to_polar (c pos : Pt) : ℝ × ℝ :=
  let pos_dx := pos.x - c.x
  let pos_dy := pos.y - c.y
  let r := Real.sqrt (pos_dx * pos_dx + pos_dy * pos_dy)
  let angle := Real.arccos (pos_dx / r)
  (if pos_dy < 0 then 2 * π - angle else angle, r)

/-- Modelled from the spec: the reduction `θ mod 2π` of the section 8
round-trip law. -/
noncomputable def mod2pi (x : ℝ) : ℝ := x - 2 * π * ⌊x / (2 * π)⌋

/-- `shift_along_radius` (`synthesize.py` lines 81-85). -/
noncomputable def shift_along_radius (c pos : Pt) (shift : ℝ) : Pt :=
  let dx := pos.x - c.x
  let dy := pos.y - c.y
  let radius := Real.sqrt (dx * dx + dy * dy)
  let scale_factor := shift / radius
  ⟨pos.x + dx * scale_factor, pos.y + dy * scale_factor⟩

/-- `to_polar` with `none` where the Python raises: `ZeroDivisionError` when
the point is at distance zero from the center, `ValueError` when the
`math.acos` argument leaves `[-1, 1]`. -/
noncomputable def to_polar_checked (c pos : Pt) : Option (ℝ × ℝ) :=
  let pos_dx := pos.x - c.x
  let pos_dy := pos.y - c.y
  let r := Real.sqrt (pos_dx * pos_dx + pos_dy * pos_dy)
  if r = 0 then none
  else if 1 < |pos_dx / r| then none
  else some (to_polar c pos)

/-- `shift_along_radius` with `none` where the Python raises
(`ZeroDivisionError` when the point is at distance zero from the center). -/
noncomputable def shift_along_radius_checked (c pos : Pt) (shift : ℝ) : Option Pt :=
  let dx := pos.x - c.x
  let dy := pos.y - c.y
  let radius := Real.sqrt (dx * dx + dy * dy)
  if radius = 0 then none
  else some (shift_along_radius c pos shift)

/-- Lines 103-107 of `synthesize.py`: choose the arc smaller than 180
degrees by pulling one endpoint's angle down by a full turn. -/
noncomputable def shorter_arc (start_angle end_angle : ℝ) : ℝ × ℝ :=
  if |end_angle - start_angle| > π then
    if start_angle < end_angle then (start_angle, end_angle - 2 * π)
    else (start_angle - 2 * π, end_angle)
  else (start_angle, end_angle)

/-- Lines 112-118 of `synthesize.py`: symmetric extension of both arc ends
outward by `excess_angle`. -/
noncomputable def excess_adjust (excess_angle start_angle end_angle : ℝ) : ℝ × ℝ :=
  if excess_angle ≠ 0 then
    if start_angle ≤ end_angle then (start_angle - excess_angle, end_angle + excess_angle)
    else (start_angle + excess_angle, end_angle - excess_angle)
  else (start_angle, end_angle)

/-- `compute_radial_segment` (`synthesize.py` lines 91-124). `endSpec` holds
either `end` or `angle` (exactly one of which the source asserts is given,
line 92); `stepsSpec` likewise holds `steps` or `angular_resolution`
(line 108). The generator's emissions are collected into a list. -/
noncomputable def compute_radial_segment (c start : Pt) (endSpec : Pt ⊕ ℝ)
    (stepsSpec : ℤ ⊕ ℝ) (excess_angle : ℝ) (skip_start : Bool) : List Pt :=
  let sp := to_polar c start
  let ep : ℝ × ℝ := match endSpec with
    | Sum.inl e => to_polar c e
    | Sum.inr angle => (sp.1 + angle, sp.2)
  let adj := shorter_arc sp.1 ep.1
  let steps : ℕ := (max 1 (match stepsSpec with
    | Sum.inl s => s
    | Sum.inr res => ⌈|adj.2 - adj.1| / res⌉)).toNat
  let fin := excess_adjust excess_angle adj.1 adj.2
  (List.range (steps + 1)).filterMap (fun (i : ℕ) =>
    if 0 < i ∨ skip_start = false then
      some (to_cartesian c (fin.1 + ((i : ℝ) / (steps : ℝ)) * (fin.2 - fin.1))
        (sp.2 + ((i : ℝ) / (steps : ℝ)) * (ep.2 - sp.2)))
    else none)

/-- The `Place` namedtuple of `illuminator.py` (position plus rotation). -/
structure Place where
  x : ℝ
  y : ℝ
  rot : ℝ

/-- The constructor parameters of `illuminator.py`'s `Illuminator`. -/
structure IllConfig where
  n_lines : ℕ
  n_leds_per_line : ℕ
  radius : ℝ
  center : Place
  led_orientation : ℝ

/-- `Illuminator.get_one_place` (`illuminator.py` lines 49-54). -/
noncomputable def get_one_place (cfg : IllConfig) (angle orientation : ℝ) : Place :=
  ⟨cfg.center.x + cfg.radius * Real.cos (angle + cfg.center.rot),
   cfg.center.y + cfg.radius * Real.sin (angle + cfg.center.rot),
   ortho angle + orientation⟩

/-- The inner LED loop of `Illuminator.__call__` (`illuminator.py`
lines 64-67), yielding `(name, running angle, orientation)` triples and the
running angle left when the loop ends.  The first argument after the
orientation is the remaining iteration count, then the current `led_idx`
and the running angle. -/
def led_entries (n_leds_per_line line_idx : ℕ) (step led_orientation : ℝ) :
    ℕ → ℕ → ℝ → (List (String × ℝ × ℝ) × ℝ)
  | 0, _, a => ([], a)
  | fuel + 1, led_idx, a =>
    let rest := led_entries n_leds_per_line line_idx step led_orientation fuel (led_idx + 1) (a - step)
    ((get_led_name n_leds_per_line line_idx led_idx, a, led_orientation) :: rest.1, rest.2)

/-- The outer line loop of `Illuminator.__call__` (`illuminator.py`
lines 61-67): one resistor entry (orientation 0), then the LED entries of
the line, threading the running angle. -/
def line_entries (n_leds_per_line : ℕ) (step led_orientation : ℝ) :
    ℕ → ℕ → ℝ → List (String × ℝ × ℝ)
  | 0, _, _ => []
  | fuel + 1, line_idx, a =>
    let led := led_entries n_leds_per_line line_idx step led_orientation n_leds_per_line 0 (a - step)
    (get_resistor_name line_idx, a, 0) ::
      (led.1 ++ line_entries n_leds_per_line step led_orientation fuel (line_idx + 1) led.2)

/-- `Illuminator.__call__` (`illuminator.py` lines 56-67), as the list of
`(name, running angle, orientation)` triples in emission order. -/
noncomputable def ill_entries (cfg : IllConfig) : List (String × ℝ × ℝ) :=
  let n_elm := cfg.n_lines * (1 + cfg.n_leds_per_line)
  let angle_step := 2 * π / (n_elm : ℝ)
  line_entries cfg.n_leds_per_line angle_step cfg.led_orientation cfg.n_lines 0 0

/-- `Illuminator.__call__`: the emitted `(name, Place)` pairs. -/
noncomputable def ill_call (cfg : IllConfig) : List (String × Place) :=
  (ill_entries cfg).map (fun e => (e.1, get_one_place cfg e.2.1 e.2.2))

/-- `CENTER_X_MM` (`synthesize.py` line 15). -/
def CENTER_X_MM : ℝ := 100

/-- `CENTER_Y_MM` (line 16). -/
def CENTER_Y_MM : ℝ := 100

/-- `RADIUS_MM` (line 19). -/
def RADIUS_MM : ℝ := 30

/-- `ROTATION_OFS_RAD` (line 25). -/
noncomputable def ROTATION_OFS_RAD : ℝ := -π / 12

/-- `LED_ORIENTATION_OFS_RAD` (line 27). -/
noncomputable def LED_ORIENTATION_OFS_RAD : ℝ := π

/-- `RESISTOR_ORIENTATION_OFS_RAD` (line 29). -/
def RESISTOR_ORIENTATION_OFS_RAD : ℝ := 0

/-- `PWR_RING_DISP_MM` (line 37). -/
def PWR_RING_DISP_MM : ℝ := -4

/-- `GND_RING_DISP_MM` (line 39). -/
def GND_RING_DISP_MM : ℝ := 4

/-- The host's `pcb.FromMM`: millimetres to internal integer nanometres. -/
def fromMM (mm : ℝ) : ℝ := mm * 1000000

/-- `self.center` as built in `Illuminator.__init__` (`synthesize.py`
line 506). -/
noncomputable def synth_center : Pt := ⟨fromMM CENTER_X_MM, fromMM CENTER_Y_MM⟩

/-- `Illuminator._get_one_place` (`synthesize.py` lines 198-203). -/
noncomputable def synth_get_one_place (angle orientation : ℝ) : Place :=
  ⟨synth_center.x + fromMM RADIUS_MM * Real.cos (angle + ROTATION_OFS_RAD),
   synth_center.y + fromMM RADIUS_MM * Real.sin (angle + ROTATION_OFS_RAD),
   ortho (angle + ROTATION_OFS_RAD) + orientation⟩

/-- Lexicographic order on Python pairs `(angle, r)`, the order used by
`list.sort` in `Illuminator._route_ring` (line 387). -/
def polar_le (p q : ℝ × ℝ) : Prop := p.1 < q.1 ∨ (p.1 = q.1 ∧ p.2 ≤ q.2)

/-- Boolean form of `polar_le` for sorting. -/
noncomputable def polar_le_b (p q : ℝ × ℝ) : Bool :=
  @decide (polar_le p q) (Classical.propDecidable _)

/-- The polar bus points of `Illuminator._route_ring` (lines 382-386): one
per terminal bus point, plus the two synthetic anchors at angle 0 and angle
pi at the ring radius offset by the displacement. -/
noncomputable def route_ring_bus_points (c : Pt) (terminal_pos : List Pt)
    (displacement : ℝ) : List (ℝ × ℝ) :=
  terminal_pos.map (to_polar c) ++
    [(0, fromMM RADIUS_MM + displacement), (π, fromMM RADIUS_MM + displacement)]

/-- The sorted bus points (`polar_term_pos.sort()`, line 387). -/
noncomputable def route_ring_sorted (c : Pt) (terminal_pos : List Pt)
    (displacement : ℝ) : List (ℝ × ℝ) :=
  (route_ring_bus_points c terminal_pos displacement).mergeSort polar_le_b

/-- The `(last_pos, pos)` endpoint pairs of the arc-track loop of
`Illuminator._route_ring` (lines 391-397): the wrap pair from the final
sorted point to the first, then each consecutive pair. -/
noncomputable def route_ring_connections (c : Pt) (terminal_pos : List Pt)
    (displacement : ℝ) : List ((ℝ × ℝ) × (ℝ × ℝ)) :=
  let s := route_ring_sorted c terminal_pos displacement
  match s.getLast? with
  | none => []
  | some l => (l :: s.dropLast).zip s

/-- A pad as `_route_pin_and_fet` sees it: a net code and a position. -/
structure PadModel where
  net : ℤ
  pos : Pt

/-- The fixed anchor used for the transistor's remaining ground pad
(`synthesize.py` lines 479-480): angle 0 at the ground bus radius. -/
noncomputable def fet_ground_known_pt (center : Pt) : Pt :=
  to_cartesian center 0 (fromMM (RADIUS_MM + GND_RING_DISP_MM))

/-- The fixed anchor used for the pin's remaining power pad (lines
493-494): angle pi at the power bus radius. -/
noncomputable def pin_power_known_pt (center : Pt) : Pt :=
  to_cartesian center π (fromMM (RADIUS_MM + PWR_RING_DISP_MM))

/-- The ground loop of `_route_pin_and_fet` (lines 473-485): for each fet
pad carrying the ground net, one via at the anchor and one straight track
from the anchor to the pad, returned as `(via point, pad position)`. -/
noncomputable def route_third_fet (center : Pt) (ground_net : ℤ)
    (pads : List PadModel) : List (Pt × Pt) :=
  pads.filterMap (fun p =>
    if p.net = ground_net then some (fet_ground_known_pt center, p.pos) else none)

/-- The power loop of `_route_pin_and_fet` (lines 487-499), analogously. -/
noncomputable def route_third_pin (center : Pt) (power_net : ℤ)
    (pads : List PadModel) : List (Pt × Pt) :=
  pads.filterMap (fun p =>
    if p.net = power_net then some (pin_power_known_pt center, p.pos) else none)

/-- Routing actions of `Illuminator.route` that matter to the bus-role
invariant: an LED strip route, a power ring route, a ground ring route. -/
inductive RAction where
  | stripRoute (net : ℤ)
  | powerRing (net : ℤ)
  | groundRing (net : ℤ)
  deriving DecidableEq, Repr

/-- The mutable per-run state of `Illuminator.route`: `self.power_net`,
`self.ground_net`, and the routing actions performed so far. -/
structure RouteSt where
  power_net : Option ℤ
  ground_net : Option ℤ
  actions : List RAction
  deriving DecidableEq, Repr

/-- One loop iteration of `Illuminator.route` (lines 400-433) on the net
`(net_code, terminals)`: unknown nets are skipped, a failing `assert`
aborts the run carrying the state reached so far. -/
def route_step (st : RouteSt) (net : ℤ × List Terminal) : Except RouteSt RouteSt :=
  match guess_net_type net.2 with
  | NetType.unknown => Except.ok st
  | NetType.ledStrip =>
    if net.2.length = 2 then
      Except.ok { st with actions := st.actions ++ [RAction.stripRoute net.1] }
    else Except.error st
  | NetType.power =>
    match st.power_net with
    | some _ => Except.error st
    | none => Except.ok { st with
        power_net := some net.1
        actions := st.actions ++ [RAction.powerRing net.1] }
  | NetType.ground =>
    match st.ground_net with
    | some _ => Except.error st
    | none => Except.ok { st with
        ground_net := some net.1
        actions := st.actions ++ [RAction.groundRing net.1] }

/-- The loop of `Illuminator.route` over the remaining nets: a failing
assertion aborts the whole run. -/
def route_loop (st : RouteSt) : List (ℤ × List Terminal) → Except RouteSt RouteSt
  | [] => Except.ok st
  | net :: rest =>
    match route_step st net with
    | Except.ok st' => route_loop st' rest
    | Except.error e => Except.error e

/-- `Illuminator.route` over the nets found at the placed modules, starting
from the freshly initialised state of `Illuminator.__init__`. -/
def route_nets (nets : List (ℤ × List Terminal)) : Except RouteSt RouteSt :=
  route_loop ⟨none, none, []⟩ nets

/-- The actions a run performed, whether it finished or aborted. -/
def performed : Except RouteSt RouteSt → List RAction
  | Except.ok st => st.actions
  | Except.error st => st.actions

/-- Recognises a power-ring routing action. -/
def is_power_ring : RAction → Bool
  | RAction.powerRing _ => true
  | _ => false

/-- Recognises a ground-ring routing action. -/
def is_ground_ring : RAction → Bool
  | RAction.groundRing _ => true
  | _ => false

/-- Whether a run ended in a failed assertion. -/
def aborted : Except RouteSt RouteSt → Bool
  | Except.error _ => true
  | Except.ok _ => false

/-! Classifier lemmas and claims. -/

lemma guess_flags_step_eq (fl : Bool × Bool) (t : Terminal) :
    guess_flags_step fl t =
      (fl.1 && (startswith t.module LED_PREFIX_STR || !startswith t.module RESISTOR_PREFIX_STR),
       fl.2 && !startswith t.module LED_PREFIX_STR) := by
  unfold guess_flags_step
  cases h1 : startswith t.module LED_PREFIX_STR <;>
    cases h2 : startswith t.module RESISTOR_PREFIX_STR <;> simp [h1, h2]

lemma guess_flags_eq (terminals : List Terminal) :
    guess_flags terminals =
      (terminals.all (fun t =>
          startswith t.module LED_PREFIX_STR || !startswith t.module RESISTOR_PREFIX_STR),
       terminals.all (fun t => !startswith t.module LED_PREFIX_STR)) := by
  have key : ∀ (ts : List Terminal) (fl : Bool × Bool),
      ts.foldl guess_flags_step fl =
        (fl.1 && ts.all (fun t =>
            startswith t.module LED_PREFIX_STR || !startswith t.module RESISTOR_PREFIX_STR),
         fl.2 && ts.all (fun t => !startswith t.module LED_PREFIX_STR)) := by
    intro ts
    induction ts with
    | nil => intro fl; simp
    | cons t ts ih =>
      intro fl
      simp only [List.foldl_cons, ih, guess_flags_step_eq, List.all_cons, Bool.and_assoc]
  simpa using key terminals (true, true)

/-- C1 (amended): `guess_net_type` agrees everywhere with the decision table
whose flags have the code's semantics: `all_leds` is true iff no terminal is
resistor-named without being LED-named, `all_resistors` is true iff no
terminal is LED-named; the branch order is Power, then Ground on terminal
count different from 2, then the same-pad test, then the genuinely mixed
two-terminal LedStrip branch, else Unknown. -/
theorem guess_net_type_eq_flag_table (terminals : List Terminal) :
    guess_net_type terminals = guess_net_type_flag_table terminals := by
  unfold guess_net_type guess_net_type_flag_table
  rw [guess_flags_eq]

/-- C1 counterexample: on the single-LED net the code returns Ground, while
the claimed decision table under its literal flag definitions (every
terminal LED-named / every terminal resistor-named) returns Unknown. -/
theorem guess_net_type_spec_table_counterexample :
    guess_net_type [⟨"LED0", "1"⟩] = NetType.ground
    ∧ guess_net_type_spec_table [⟨"LED0", "1"⟩] = NetType.unknown
    ∧ NetType.ground ≠ NetType.unknown := by
  decide

/-- C2 (amended): the six example classifications, with the same-pad example
restricted to LED-named terminals; a two-terminal same-pad net of resistors
is Power, not Ground. -/
theorem guess_net_type_examples :
    guess_net_type [⟨"R0", "2"⟩, ⟨"R1", "2"⟩] = NetType.power
    ∧ guess_net_type [⟨"LED0", "1"⟩] = NetType.ground
    ∧ guess_net_type [⟨"LED0", "2"⟩, ⟨"R0", "1"⟩] = NetType.ledStrip
    ∧ guess_net_type [⟨"LED0", "1"⟩, ⟨"LED1", "1"⟩, ⟨"LED2", "1"⟩] = NetType.ground
    ∧ guess_net_type [⟨"LED0", "1"⟩, ⟨"LED1", "1"⟩] = NetType.ground
    ∧ guess_net_type [⟨"Q0", "1"⟩] = NetType.unknown := by
  decide

/-- C2 counterexample: a two-terminal net whose terminals reference the same
pad name is not always Ground: two resistor terminals on pad 2 classify as
Power. -/
theorem same_pad_two_terminal_counterexample :
    guess_net_type [⟨"R0", "2"⟩, ⟨"R1", "2"⟩] = NetType.power
    ∧ NetType.power ≠ NetType.ground := by
  decide

/-! Routing-invariant lemmas and claim C9. -/

lemma route_step_error_eq (st : RouteSt) (net : ℤ × List Terminal) (e : RouteSt)
    (h : route_step st net = Except.error e) : e = st := by
  cases g : guess_net_type net.2 <;> simp only [route_step, g] at h
  · split at h
    · simp at h
    · simp at h; exact h.symm
  · cases hq : st.power_net <;> simp [hq] at h
    exact h.symm
  · cases hq : st.ground_net <;> simp [hq] at h
    exact h.symm
  · simp at h

lemma route_step_ok_power (st st' : RouteSt) (net : ℤ × List Terminal)
    (h : route_step st net = Except.ok st')
    (hp : st.actions.countP is_power_ring ≤ (if st.power_net.isSome then 1 else 0)) :
    st'.actions.countP is_power_ring ≤ (if st'.power_net.isSome then 1 else 0) := by
  cases g : guess_net_type net.2 <;> simp only [route_step, g] at h
  · split at h
    · simp at h
      subst h
      simpa [List.countP_append, is_power_ring] using hp
    · simp at h
  · cases hq : st.power_net <;> simp [hq] at h
    subst h
    rw [hq] at hp
    simp only [Option.isSome_none, Bool.false_eq_true, if_false, Nat.le_zero] at hp
    simp [List.countP_append, is_power_ring, hp]
  · cases hq : st.ground_net <;> simp [hq] at h
    subst h
    simpa [List.countP_append, is_power_ring] using hp
  · simp at h
    subst h
    exact hp

lemma route_step_ok_ground (st st' : RouteSt) (net : ℤ × List Terminal)
    (h : route_step st net = Except.ok st')
    (hp : st.actions.countP is_ground_ring ≤ (if st.ground_net.isSome then 1 else 0)) :
    st'.actions.countP is_ground_ring ≤ (if st'.ground_net.isSome then 1 else 0) := by
  cases g : guess_net_type net.2 <;> simp only [route_step, g] at h
  · split at h
    · simp at h
      subst h
      simpa [List.countP_append, is_ground_ring] using hp
    · simp at h
  · cases hq : st.power_net <;> simp [hq] at h
    subst h
    simpa [List.countP_append, is_ground_ring] using hp
  · cases hq : st.ground_net <;> simp [hq] at h
    subst h
    rw [hq] at hp
    simp only [Option.isSome_none, Bool.false_eq_true, if_false, Nat.le_zero] at hp
    simp [List.countP_append, is_ground_ring, hp]
  · simp at h
    subst h
    exact hp

lemma route_loop_ring_bound (nets : List (ℤ × List Terminal)) : ∀ st : RouteSt,
    st.actions.countP is_power_ring ≤ (if st.power_net.isSome then 1 else 0) →
    st.actions.countP is_ground_ring ≤ (if st.ground_net.isSome then 1 else 0) →
    (performed (route_loop st nets)).countP is_power_ring ≤ 1
    ∧ (performed (route_loop st nets)).countP is_ground_ring ≤ 1 := by
  induction nets with
  | nil =>
    intro st h1 h2
    constructor <;> simp only [route_loop, performed] <;>
      [skip; skip] <;> first
    | exact h1.trans (by split <;> omega)
    | exact h2.trans (by split <;> omega)
  | cons net rest ih =>
    intro st h1 h2
    unfold route_loop
    cases hstep : route_step st net with
    | error e =>
      have he : e = st := route_step_error_eq st net e hstep
      subst he
      exact ⟨h1.trans (by split <;> omega), h2.trans (by split <;> omega)⟩
    | ok st' =>
      exact ih st' (route_step_ok_power st st' net hstep h1)
        (route_step_ok_ground st st' net hstep h2)

lemma route_loop_power_abort (nets : List (ℤ × List Terminal)) : ∀ st : RouteSt,
    2 ≤ nets.countP (fun n => guess_net_type n.2 == NetType.power)
        + (if st.power_net.isSome then 1 else 0) →
    aborted (route_loop st nets) = true := by
  induction nets with
  | nil =>
    intro st h
    simp only [List.countP_nil, Nat.zero_add] at h
    split at h <;> omega
  | cons net rest ih =>
    intro st h
    rw [List.countP_cons] at h
    unfold route_loop
    cases hstep : route_step st net with
    | error e => simp [aborted]
    | ok st' =>
      apply ih st'
      cases g : guess_net_type net.2 <;> simp only [route_step, g] at hstep <;> rw [g] at h
      · split at hstep
        · simp at hstep
          subst hstep
          have h' : 2 ≤ List.countP (fun n => guess_net_type n.2 == NetType.power) rest
              + 0 + (if st.power_net.isSome = true then 1 else 0) := h
          show 2 ≤ List.countP (fun n => guess_net_type n.2 == NetType.power) rest
              + (if st.power_net.isSome = true then 1 else 0)
          omega
        · simp at hstep
      · cases hq : st.power_net <;> simp [hq] at hstep
        subst hstep
        rw [hq] at h
        have h' : 2 ≤ List.countP (fun n => guess_net_type n.2 == NetType.power) rest
            + 1 + 0 := h
        show 2 ≤ List.countP (fun n => guess_net_type n.2 == NetType.power) rest + 1
        omega
      · cases hq : st.ground_net <;> simp [hq] at hstep
        subst hstep
        have h' : 2 ≤ List.countP (fun n => guess_net_type n.2 == NetType.power) rest
            + 0 + (if st.power_net.isSome = true then 1 else 0) := h
        show 2 ≤ List.countP (fun n => guess_net_type n.2 == NetType.power) rest
            + (if st.power_net.isSome = true then 1 else 0)
        omega
      · simp at hstep
        subst hstep
        have h' : 2 ≤ List.countP (fun n => guess_net_type n.2 == NetType.power) rest
            + 0 + (if st.power_net.isSome = true then 1 else 0) := h
        omega

lemma route_loop_ground_abort (nets : List (ℤ × List Terminal)) : ∀ st : RouteSt,
    2 ≤ nets.countP (fun n => guess_net_type n.2 == NetType.ground)
        + (if st.ground_net.isSome then 1 else 0) →
    aborted (route_loop st nets) = true := by
  induction nets with
  | nil =>
    intro st h
    simp only [List.countP_nil, Nat.zero_add] at h
    split at h <;> omega
  | cons net rest ih =>
    intro st h
    rw [List.countP_cons] at h
    unfold route_loop
    cases hstep : route_step st net with
    | error e => simp [aborted]
    | ok st' =>
      apply ih st'
      cases g : guess_net_type net.2 <;> simp only [route_step, g] at hstep <;> rw [g] at h
      · split at hstep
        · simp at hstep
          subst hstep
          have h' : 2 ≤ List.countP (fun n => guess_net_type n.2 == NetType.ground) rest
              + 0 + (if st.ground_net.isSome = true then 1 else 0) := h
          show 2 ≤ List.countP (fun n => guess_net_type n.2 == NetType.ground) rest
              + (if st.ground_net.isSome = true then 1 else 0)
          omega
        · simp at hstep
      · cases hq : st.power_net <;> simp [hq] at hstep
        subst hstep
        have h' : 2 ≤ List.countP (fun n => guess_net_type n.2 == NetType.ground) rest
            + 0 + (if st.ground_net.isSome = true then 1 else 0) := h
        show 2 ≤ List.countP (fun n => guess_net_type n.2 == NetType.ground) rest
            + (if st.ground_net.isSome = true then 1 else 0)
        omega
      · cases hq : st.ground_net <;> simp [hq] at hstep
        subst hstep
        rw [hq] at h
        have h' : 2 ≤ List.countP (fun n => guess_net_type n.2 == NetType.ground) rest
            + 1 + 0 := h
        show 2 ≤ List.countP (fun n => guess_net_type n.2 == NetType.ground) rest + 1
        omega
      · simp at hstep
        subst hstep
        have h' : 2 ≤ List.countP (fun n => guess_net_type n.2 == NetType.ground) rest
            + 0 + (if st.ground_net.isSome = true then 1 else 0) := h
        omega

/-- C9: a single run of `route` never performs more than one power-ring and
one ground-ring routing, and as soon as the nets contain a second net
classified Power (or Ground), the run aborts on the assertion. -/
theorem route_at_most_one_bus_ring (nets : List (ℤ × List Terminal)) :
    (performed (route_nets nets)).countP is_power_ring ≤ 1
    ∧ (performed (route_nets nets)).countP is_ground_ring ≤ 1
    ∧ (2 ≤ nets.countP (fun n => guess_net_type n.2 == NetType.power) →
        aborted (route_nets nets) = true)
    ∧ (2 ≤ nets.countP (fun n => guess_net_type n.2 == NetType.ground) →
        aborted (route_nets nets) = true) := by
  have hb := route_loop_ring_bound nets ⟨none, none, []⟩ (by simp) (by simp)
  refine ⟨hb.1, hb.2, fun h => ?_, fun h => ?_⟩
  · exact route_loop_power_abort nets ⟨none, none, []⟩ (by simpa using h)
  · exact route_loop_ground_abort nets ⟨none, none, []⟩ (by simpa using h)

/-- C9 witness: a concrete run with two Power-classified nets aborts. -/
theorem route_at_most_one_bus_ring_witness :
    2 ≤ ([((1:ℤ), [(⟨"R0", "2"⟩ : Terminal), ⟨"R1", "2"⟩]),
          ((2:ℤ), [(⟨"R2", "2"⟩ : Terminal), ⟨"R3", "2"⟩])].countP
        (fun n => guess_net_type n.2 == NetType.power))
    ∧ aborted (route_nets [((1:ℤ), [(⟨"R0", "2"⟩ : Terminal), ⟨"R1", "2"⟩]),
          ((2:ℤ), [(⟨"R2", "2"⟩ : Terminal), ⟨"R3", "2"⟩])]) = true :=
  ⟨by decide, (route_at_most_one_bus_ring _).2.2.1 (by decide)⟩

/-! Polar geometry lemmas and claims C5, C10, C4. -/

lemma mod2pi_mem (x : ℝ) : 0 ≤ mod2pi x ∧ mod2pi x < 2 * π := by
  have h2 : (0:ℝ) < 2 * π := Real.two_pi_pos
  have key : mod2pi x = 2 * π * Int.fract (x / (2 * π)) := by
    unfold mod2pi Int.fract
    field_simp
  constructor
  · rw [key]
    exact mul_nonneg h2.le (Int.fract_nonneg _)
  · rw [key]
    have := Int.fract_lt_one (x / (2 * π))
    nlinarith

lemma cos_mod2pi (x : ℝ) : Real.cos (mod2pi x) = Real.cos x := by
  have h : mod2pi x = x + (-⌊x / (2 * π)⌋ : ℤ) * (2 * π) := by
    unfold mod2pi
    push_cast
    ring
  rw [h, Real.cos_add_int_mul_two_pi]

lemma sin_mod2pi (x : ℝ) : Real.sin (mod2pi x) = Real.sin x := by
  have h : mod2pi x = x + (-⌊x / (2 * π)⌋ : ℤ) * (2 * π) := by
    unfold mod2pi
    push_cast
    ring
  rw [h, Real.sin_add_int_mul_two_pi]

lemma mul_neg_iff_of_pos (r s : ℝ) (hr : 0 < r) : r * s < 0 ↔ s < 0 := by
  rw [mul_neg_iff]
  constructor
  · rintro (⟨_, h⟩ | ⟨h, _⟩)
    · exact h
    · exact absurd hr (not_lt.2 h.le)
  · intro h
    exact Or.inl ⟨hr, h⟩

lemma to_polar_to_cartesian (c : Pt) (θ r : ℝ) (hr : 0 < r) :
    to_polar c (to_cartesian c θ r) = (mod2pi θ, r) := by
  have hdx : (to_cartesian c θ r).x - c.x = r * Real.cos θ := by
    simp only [to_cartesian]
    ring
  have hdy : (to_cartesian c θ r).y - c.y = r * Real.sin θ := by
    simp only [to_cartesian]
    ring
  simp only [to_polar]
  rw [hdx, hdy]
  have hsq : r * Real.cos θ * (r * Real.cos θ) + r * Real.sin θ * (r * Real.sin θ) = r ^ 2 := by
    have h1 : r * Real.cos θ * (r * Real.cos θ) + r * Real.sin θ * (r * Real.sin θ)
        = r ^ 2 * (Real.sin θ ^ 2 + Real.cos θ ^ 2) := by ring
    rw [h1, Real.sin_sq_add_cos_sq, mul_one]
  rw [hsq, Real.sqrt_sq hr.le]
  rw [mul_div_cancel_left₀ _ hr.ne']
  rw [← cos_mod2pi θ, ← sin_mod2pi θ]
  simp only [mul_neg_iff_of_pos _ _ hr]
  obtain ⟨hm0, hm2⟩ := mod2pi_mem θ
  by_cases hmp : mod2pi θ ≤ π
  · have hsin : 0 ≤ Real.sin (mod2pi θ) := Real.sin_nonneg_of_nonneg_of_le_pi hm0 hmp
    rw [if_neg (not_lt.2 hsin), Real.arccos_cos hm0 hmp]
  · push_neg at hmp
    have hsin : Real.sin (mod2pi θ) < 0 := by
      have h1 : 0 < Real.sin (mod2pi θ - π) :=
        Real.sin_pos_of_pos_of_lt_pi (by linarith) (by linarith)
      rw [Real.sin_sub_pi] at h1
      linarith
    rw [if_pos hsin]
    rw [show Real.cos (mod2pi θ) = Real.cos (2 * π - mod2pi θ) from (Real.cos_two_pi_sub _).symm]
    rw [Real.arccos_cos (by linarith) (by linarith)]
    rw [show 2 * π - (2 * π - mod2pi θ) = mod2pi θ from by ring]

/-- C5: the polar round trip.  For every angle and positive radius,
`to_polar` applied to `to_cartesian` recovers exactly the angle reduced
modulo two pi together with the radius, and that reduced angle lies in
`[0, 2*pi)` (the quadrant-correct branch of `to_polar` resolves it via the
sign of the y-offset). -/
theorem to_polar_round_trip (c : Pt) (θ r : ℝ) (hr : 0 < r) :
    to_polar c (to_cartesian c θ r) = (mod2pi θ, r)
    ∧ 0 ≤ mod2pi θ ∧ mod2pi θ < 2 * π :=
  ⟨to_polar_to_cartesian c θ r hr, (mod2pi_mem θ).1, (mod2pi_mem θ).2⟩

/-- C5 witness: the round trip at angle 0, radius 1 about the origin. -/
theorem to_polar_round_trip_witness :
    (0:ℝ) < 1
    ∧ (to_polar ⟨0, 0⟩ (to_cartesian ⟨0, 0⟩ 0 1) = (mod2pi 0, 1)
        ∧ 0 ≤ mod2pi 0 ∧ mod2pi 0 < 2 * π) :=
  ⟨one_pos, to_polar_round_trip ⟨0, 0⟩ 0 1 one_pos⟩

/-- C10: `to_polar` and `shift_along_radius` are partial at the center:
called on a point at distance zero they raise (modelled as `none`), and
under the precondition of positive distance both succeed, the `acos`
argument being guaranteed inside `[-1, 1]`. -/
theorem checked_geometry_safety (c p : Pt) (s : ℝ) :
    to_polar_checked c c = none
    ∧ shift_along_radius_checked c c s = none
    ∧ (0 < Real.sqrt ((p.x - c.x) * (p.x - c.x) + (p.y - c.y) * (p.y - c.y)) →
        to_polar_checked c p = some (to_polar c p)
        ∧ shift_along_radius_checked c p s = some (shift_along_radius c p s)) := by
  refine ⟨?_, ?_, fun hr => ⟨?_, ?_⟩⟩
  · simp [to_polar_checked]
  · simp [shift_along_radius_checked]
  · have habs : |(p.x - c.x) / Real.sqrt ((p.x - c.x) * (p.x - c.x) + (p.y - c.y) * (p.y - c.y))| ≤ 1 := by
      rw [abs_div, abs_of_nonneg (Real.sqrt_nonneg _), div_le_one hr]
      calc |p.x - c.x| = Real.sqrt ((p.x - c.x) * (p.x - c.x)) :=
            (Real.sqrt_mul_self_eq_abs _).symm
        _ ≤ Real.sqrt ((p.x - c.x) * (p.x - c.x) + (p.y - c.y) * (p.y - c.y)) :=
            Real.sqrt_le_sqrt (by nlinarith [mul_self_nonneg (p.y - c.y)])
    simp only [to_polar_checked]
    rw [if_neg hr.ne', if_neg (not_lt.2 habs)]
  · simp only [shift_along_radius_checked]
    rw [if_neg hr.ne']

/-- C10 witness: both operations succeed on the point (1, 0) about the
origin, and the distance precondition holds there. -/
theorem checked_geometry_safety_witness :
    0 < Real.sqrt (((1:ℝ) - 0) * ((1:ℝ) - 0) + ((0:ℝ) - 0) * ((0:ℝ) - 0))
    ∧ to_polar_checked ⟨0, 0⟩ ⟨1, 0⟩ = some (to_polar ⟨0, 0⟩ ⟨1, 0⟩)
    ∧ shift_along_radius_checked ⟨0, 0⟩ ⟨1, 0⟩ 5
        = some (shift_along_radius ⟨0, 0⟩ ⟨1, 0⟩ 5) := by
  have hr : 0 < Real.sqrt (((1:ℝ) - 0) * ((1:ℝ) - 0) + ((0:ℝ) - 0) * ((0:ℝ) - 0)) := by
    rw [Real.sqrt_pos]
    norm_num
  exact ⟨hr, (checked_geometry_safety ⟨0, 0⟩ ⟨1, 0⟩ 5).2.2 hr⟩

/-- C4 (amended): both generators place at
`to_cartesian(center, angle + centerRotation, radius)`; the standalone
generator's rotation is `angle - pi/2` plus the orientation offset, while
the synthesize generator's rotation additionally includes the global
rotation offset: `(angle + ROTATION_OFS_RAD) - pi/2` plus the offset. -/
theorem get_one_place_geometry (cfg : IllConfig) (a o : ℝ) :
    (⟨(get_one_place cfg a o).x, (get_one_place cfg a o).y⟩ : Pt)
        = to_cartesian ⟨cfg.center.x, cfg.center.y⟩ (a + cfg.center.rot) cfg.radius
    ∧ (get_one_place cfg a o).rot = a - π / 2 + o
    ∧ (⟨(synth_get_one_place a o).x, (synth_get_one_place a o).y⟩ : Pt)
        = to_cartesian synth_center (a + ROTATION_OFS_RAD) (fromMM RADIUS_MM)
    ∧ (synth_get_one_place a o).rot = (a + ROTATION_OFS_RAD) - π / 2 + o :=
  ⟨rfl, rfl, rfl, rfl⟩

/-- C4 counterexample: at running angle 0 and orientation offset 0 the
synthesize generator's rotation is `-pi/12 - pi/2`, not `0 - pi/2`: the
global rotation offset enters the rotation as well. -/
theorem synth_rotation_counterexample :
    (synth_get_one_place 0 0).rot ≠ 0 - π / 2 + 0 := by
  simp only [synth_get_one_place, ortho, ROTATION_OFS_RAD]
  intro h
  have := Real.pi_pos
  linarith

/-! Arc discretization lemmas and claim C6. -/

lemma polar_radius_to_cartesian (c : Pt) (a r : ℝ) (hr : 0 ≤ r) :
    (to_polar c (to_cartesian c a r)).2 = r := by
  simp only [to_polar, to_cartesian]
  rw [show (c.x + r * Real.cos a - c.x) * (c.x + r * Real.cos a - c.x)
      + (c.y + r * Real.sin a - c.y) * (c.y + r * Real.sin a - c.y)
      = r ^ 2 * (Real.sin a ^ 2 + Real.cos a ^ 2) from by ring]
  rw [Real.sin_sq_add_cos_sq, mul_one, Real.sqrt_sq hr]

lemma to_polar_angle_range (c p : Pt) (h : 0 < (to_polar c p).2) :
    0 ≤ (to_polar c p).1 ∧ (to_polar c p).1 < 2 * π := by
  have hr : 0 < Real.sqrt ((p.x - c.x) * (p.x - c.x) + (p.y - c.y) * (p.y - c.y)) := h
  simp only [to_polar]
  by_cases hdy : p.y - c.y < 0
  · rw [if_pos hdy]
    constructor
    · have h1 := Real.arccos_le_pi
        ((p.x - c.x) / Real.sqrt ((p.x - c.x) * (p.x - c.x) + (p.y - c.y) * (p.y - c.y)))
      linarith [Real.pi_pos]
    · have h2 : Real.arccos
          ((p.x - c.x) / Real.sqrt ((p.x - c.x) * (p.x - c.x) + (p.y - c.y) * (p.y - c.y)))
          ≠ 0 := by
        intro h0
        rw [Real.arccos_eq_zero] at h0
        have hqle : Real.sqrt ((p.x - c.x) * (p.x - c.x) + (p.y - c.y) * (p.y - c.y))
            ≤ p.x - c.x := (one_le_div hr).1 h0
        have hq2 : (Real.sqrt ((p.x - c.x) * (p.x - c.x) + (p.y - c.y) * (p.y - c.y))) ^ 2
            = (p.x - c.x) * (p.x - c.x) + (p.y - c.y) * (p.y - c.y) :=
          Real.sq_sqrt (add_nonneg (mul_self_nonneg _) (mul_self_nonneg _))
        have hdy2 : 0 < (p.y - c.y) * (p.y - c.y) := mul_pos_of_neg_of_neg hdy hdy
        nlinarith [mul_le_mul hqle hqle hr.le (hr.le.trans hqle), hq2, hdy2]
      have h3 := Real.arccos_nonneg
        ((p.x - c.x) / Real.sqrt ((p.x - c.x) * (p.x - c.x) + (p.y - c.y) * (p.y - c.y)))
      have h4 := lt_of_le_of_ne h3 (Ne.symm h2)
      linarith
  · rw [if_neg hdy]
    exact ⟨Real.arccos_nonneg _,
      lt_of_le_of_lt (Real.arccos_le_pi _) (by linarith [Real.pi_pos])⟩

lemma shorter_arc_span (a b : ℝ) (ha0 : 0 ≤ a) (ha2 : a < 2 * π) (hb0 : 0 ≤ b)
    (hb2 : b < 2 * π) : |(shorter_arc a b).2 - (shorter_arc a b).1| ≤ π := by
  unfold shorter_arc
  split_ifs with h1 h2
  · have hba : π < b - a := by
      rwa [abs_of_pos (by linarith)] at h1
    show |b - 2 * π - a| ≤ π
    rw [abs_le]
    constructor <;> linarith
  · have hba : π < a - b := by
      have habs : |b - a| = -(b - a) := abs_of_nonpos (by linarith)
      rw [habs] at h1
      linarith
    show |b - (a - 2 * π)| ≤ π
    rw [abs_le]
    constructor <;> linarith
  · show |b - a| ≤ π
    linarith [not_lt.1 h1]

lemma one_le_toNat_max_one (m : ℤ) : 1 ≤ (max 1 m).toNat := by
  have h := le_max_left 1 m
  omega

lemma filterMap_some_eq_map {β γ : Type _} (l : List β) (g : β → γ) :
    l.filterMap (fun x => some (g x)) = l.map g := by
  induction l with
  | nil => rfl
  | cons a l ih => simp [List.filterMap_cons, ih]

lemma filterMap_if_pos_range {β : Type _} (n : ℕ) (g : ℕ → β) :
    (List.range (n + 1)).filterMap (fun i => if 0 < i then some (g i) else none)
      = (List.range n).map (fun i => g (i + 1)) := by
  induction n with
  | zero => simp
  | succ n ih =>
    rw [List.range_succ, List.filterMap_append, ih, List.range_succ, List.map_append]
    simp

lemma skiplist_getLast_max {β : Type _} (m : ℤ) (f : ℕ → β) (b : Bool) :
    ((List.range ((max 1 m).toNat + 1)).filterMap fun i =>
        if 0 < i ∨ b = false then some (f i) else none).getLast?
      = some (f ((max 1 m).toNat)) := by
  obtain ⟨k, hk⟩ : ∃ k, (max 1 m).toNat = k + 1 :=
    ⟨(max 1 m).toNat - 1, by have := one_le_toNat_max_one m; omega⟩
  rw [hk]
  cases b
  · have hfn : (fun i => if 0 < i ∨ (false : Bool) = false then some (f i) else none)
        = fun i => some (f i) := by
      funext i
      simp
    rw [hfn, filterMap_some_eq_map, List.range_succ, List.map_append]
    simp
  · have hfn : (fun i => if 0 < i ∨ (true : Bool) = false then some (f i) else none)
        = fun i => if 0 < i then some (f i) else none := by
      funext i
      simp
    rw [hfn, filterMap_if_pos_range, List.range_succ, List.map_append]
    simp

lemma skiplist_head_max {β : Type _} (m : ℤ) (f : ℕ → β) (b : Bool) (hb : b = false) :
    ((List.range ((max 1 m).toNat + 1)).filterMap fun i =>
        if 0 < i ∨ b = false then some (f i) else none).head?
      = some (f 0) := by
  subst hb
  have hfn : (fun i => if 0 < i ∨ (false : Bool) = false then some (f i) else none)
      = fun i => some (f i) := by
    funext i
    simp
  rw [hfn, filterMap_some_eq_map, List.range_succ_eq_map]
  simp

lemma excess_adjust_zero (a b : ℝ) : excess_adjust 0 a b = (a, b) := by
  simp [excess_adjust]

lemma interp_last (sr er : ℝ) (m : ℤ) :
    sr + ((((max 1 m).toNat : ℕ) : ℝ) / (((max 1 m).toNat : ℕ) : ℝ)) * (er - sr) = er := by
  have h1 := one_le_toNat_max_one m
  rw [div_self (Nat.cast_ne_zero.2 (by omega))]
  ring

/-- C6: with no excess angle, the arc generated between two points away from
the center spans at most pi radians after the shorter-arc adjustment
(whatever the raw angular difference, including across the 0/2pi seam,
since `to_polar` angles lie in `[0, 2*pi)`); the last generated point sits
exactly at the end point's radius, and when `skip_start` is false the first
generated point sits exactly at the start point's radius. -/
theorem compute_radial_segment_shortest_arc (c start e : Pt) (stepsSpec : ℤ ⊕ ℝ)
    (skip_start : Bool) (hs : 0 < (to_polar c start).2) (he : 0 < (to_polar c e).2) :
    |(shorter_arc (to_polar c start).1 (to_polar c e).1).2
        - (shorter_arc (to_polar c start).1 (to_polar c e).1).1| ≤ π
    ∧ (∃ p, (compute_radial_segment c start (Sum.inl e) stepsSpec 0 skip_start).getLast? = some p
          ∧ (to_polar c p).2 = (to_polar c e).2)
    ∧ (skip_start = false →
        ∃ q, (compute_radial_segment c start (Sum.inl e) stepsSpec 0 skip_start).head? = some q
          ∧ (to_polar c q).2 = (to_polar c start).2) := by
  obtain ⟨hs0, hs2⟩ := to_polar_angle_range c start hs
  obtain ⟨he0, he2⟩ := to_polar_angle_range c e he
  refine ⟨shorter_arc_span _ _ hs0 hs2 he0 he2, ?_, ?_⟩
  · cases stepsSpec with
    | inl s =>
      simp only [compute_radial_segment, excess_adjust_zero]
      rw [skiplist_getLast_max]
      refine ⟨_, rfl, ?_⟩
      rw [interp_last, interp_last]
      exact polar_radius_to_cartesian c _ _ he.le
    | inr res =>
      simp only [compute_radial_segment, excess_adjust_zero]
      rw [skiplist_getLast_max]
      refine ⟨_, rfl, ?_⟩
      rw [interp_last, interp_last]
      exact polar_radius_to_cartesian c _ _ he.le
  · intro hsk
    cases stepsSpec with
    | inl s =>
      simp only [compute_radial_segment, excess_adjust_zero]
      rw [skiplist_head_max _ _ _ hsk]
      refine ⟨_, rfl, ?_⟩
      norm_num
      exact polar_radius_to_cartesian c _ _ hs.le
    | inr res =>
      simp only [compute_radial_segment, excess_adjust_zero]
      rw [skiplist_head_max _ _ _ hsk]
      refine ⟨_, rfl, ?_⟩
      norm_num
      exact polar_radius_to_cartesian c _ _ hs.le

/-- C6 witness: both distance preconditions hold for the points (1, 0) and
(0, 1) about the origin, and the shorter-arc span bound follows there. -/
theorem compute_radial_segment_shortest_arc_witness :
    0 < (to_polar ⟨0, 0⟩ ⟨1, 0⟩).2 ∧ 0 < (to_polar ⟨0, 0⟩ ⟨0, 1⟩).2
    ∧ |(shorter_arc (to_polar ⟨0, 0⟩ ⟨1, 0⟩).1 (to_polar ⟨0, 0⟩ ⟨0, 1⟩).1).2
        - (shorter_arc (to_polar ⟨0, 0⟩ ⟨1, 0⟩).1 (to_polar ⟨0, 0⟩ ⟨0, 1⟩).1).1| ≤ π := by
  have h1 : 0 < (to_polar (⟨0, 0⟩ : Pt) (⟨1, 0⟩ : Pt)).2 := by
    simp only [to_polar]
    rw [Real.sqrt_pos]
    norm_num
  have h2 : 0 < (to_polar (⟨0, 0⟩ : Pt) (⟨0, 1⟩ : Pt)).2 := by
    simp only [to_polar]
    rw [Real.sqrt_pos]
    norm_num
  exact ⟨h1, h2, (compute_radial_segment_shortest_arc ⟨0, 0⟩ ⟨1, 0⟩ ⟨0, 1⟩
    (Sum.inr (π / 40)) true h1 h2).1⟩

/-! Ring-bus sorting lemmas and claim C7. -/

lemma mod2pi_eq_self (x : ℝ) (h0 : 0 ≤ x) (h2 : x < 2 * π) : mod2pi x = x := by
  unfold mod2pi
  have hfl : ⌊x / (2 * π)⌋ = 0 := by
    rw [Int.floor_eq_zero_iff]
    exact Set.mem_Ico.2 ⟨div_nonneg h0 Real.two_pi_pos.le, (div_lt_one Real.two_pi_pos).2 h2⟩
  rw [hfl]
  simp

lemma polar_le_b_iff (p q : ℝ × ℝ) : polar_le_b p q = true ↔ polar_le p q := by
  simp [polar_le_b]

lemma polar_le_b_trans (a b c' : ℝ × ℝ) (hab : polar_le_b a b = true)
    (hbc : polar_le_b b c' = true) : polar_le_b a c' = true := by
  rw [polar_le_b_iff] at hab hbc ⊢
  rcases hab with h | ⟨h1, h2⟩ <;> rcases hbc with h' | ⟨h1', h2'⟩
  · exact Or.inl (h.trans h')
  · exact Or.inl (h1' ▸ h)
  · exact Or.inl (h1 ▸ h')
  · exact Or.inr ⟨h1.trans h1', h2.trans h2'⟩

lemma polar_le_b_total (a b : ℝ × ℝ) : (polar_le_b a b || polar_le_b b a) = true := by
  simp only [Bool.or_eq_true, polar_le_b_iff]
  rcases lt_trichotomy a.1 b.1 with h | h | h
  · exact Or.inl (Or.inl h)
  · rcases le_total a.2 b.2 with h2 | h2
    · exact Or.inl (Or.inr ⟨h, h2⟩)
    · exact Or.inr (Or.inr ⟨h.symm, h2⟩)
  · exact Or.inr (Or.inl h)

lemma polar_le_b_antisymm (a b : ℝ × ℝ) (hab : polar_le_b a b = true)
    (hba : polar_le_b b a = true) : a = b := by
  rw [polar_le_b_iff] at hab hba
  rcases hab with h | ⟨h1, h2⟩ <;> rcases hba with h' | ⟨h1', h2'⟩
  · exact absurd h' (lt_asymm h)
  · exact absurd (h1' ▸ h) (lt_irrefl _)
  · exact absurd (h1 ▸ h') (lt_irrefl _)
  · exact Prod.ext h1 (le_antisymm h2 h2')

/-- C7: the ring router's bus-point list holds one polar point per terminal
plus exactly the two synthetic anchors at angles 0 and pi at the displaced
ring radius; with terminals at 10 and 170 degrees on the bus radius the
sorted points run 0, 10, 170, 180 degrees, and the emitted arc connections
form the full cycle with the wrap pair from the 180-degree point back to the
0-degree point, one connection per point. -/
theorem route_ring_connects_sorted_cycle (c : Pt) (d busR : ℝ)
    (hB : busR = fromMM RADIUS_MM + d) (h : 0 < busR) :
    (∀ tp : List Pt, (route_ring_bus_points c tp d).length = tp.length + 2)
    ∧ route_ring_sorted c
        [to_cartesian c (π / 18) busR, to_cartesian c (17 * π / 18) busR] d
      = [(0, busR), (π / 18, busR), (17 * π / 18, busR), (π, busR)]
    ∧ route_ring_connections c
        [to_cartesian c (π / 18) busR, to_cartesian c (17 * π / 18) busR] d
      = [((π, busR), (0, busR)), ((0, busR), (π / 18, busR)),
         ((π / 18, busR), (17 * π / 18, busR)), ((17 * π / 18, busR), (π, busR))] := by
  have hp1 : to_polar c (to_cartesian c (π / 18) busR) = (π / 18, busR) := by
    rw [to_polar_to_cartesian c _ _ h,
      mod2pi_eq_self _ (by positivity) (by linarith [Real.pi_pos])]
  have hp2 : to_polar c (to_cartesian c (17 * π / 18) busR) = (17 * π / 18, busR) := by
    rw [to_polar_to_cartesian c _ _ h,
      mod2pi_eq_self _ (by positivity) (by linarith [Real.pi_pos])]
  have hbus : route_ring_bus_points c
      [to_cartesian c (π / 18) busR, to_cartesian c (17 * π / 18) busR] d
      = [(π / 18, busR), (17 * π / 18, busR), (0, busR), (π, busR)] := by
    simp only [route_ring_bus_points, List.map_cons, List.map_nil, hp1, hp2, ← hB]
    rfl
  have hsorted : route_ring_sorted c
      [to_cartesian c (π / 18) busR, to_cartesian c (17 * π / 18) busR] d
      = [(0, busR), (π / 18, busR), (17 * π / 18, busR), (π, busR)] := by
    unfold route_ring_sorted
    rw [hbus]
    have hperm : ([(π / 18, busR), (17 * π / 18, busR), (0, busR), (π, busR)]).Perm
        [(0, busR), (π / 18, busR), (17 * π / 18, busR), (π, busR)] :=
      @List.perm_middle _ (0, busR) [(π / 18, busR), (17 * π / 18, busR)] [(π, busR)]
    have i1 : (0:ℝ) < π / 18 := by positivity
    have i2 : π / 18 < 17 * π / 18 := by linarith [Real.pi_pos]
    have i3 : 17 * π / 18 < π := by linarith [Real.pi_pos]
    have htarget : List.Pairwise (fun p q => polar_le_b p q = true)
        [(0, busR), (π / 18, busR), (17 * π / 18, busR), (π, busR)] := by
      refine List.Pairwise.cons ?_ (List.Pairwise.cons ?_ (List.Pairwise.cons ?_ ?_))
      · intro a' ha'
        simp only [List.mem_cons, List.not_mem_nil, or_false] at ha'
        rcases ha' with rfl | rfl | rfl <;>
          · rw [polar_le_b_iff]
            left
            dsimp only
            linarith
      · intro a' ha'
        simp only [List.mem_cons, List.not_mem_nil, or_false] at ha'
        rcases ha' with rfl | rfl <;>
          · rw [polar_le_b_iff]
            left
            dsimp only
            linarith
      · intro a' ha'
        simp only [List.mem_cons, List.not_mem_nil, or_false] at ha'
        rcases ha' with rfl
        rw [polar_le_b_iff]
        left
        dsimp only
        linarith
      · exact List.pairwise_singleton _ _
    haveI : IsAntisymm (ℝ × ℝ) (fun p q => polar_le_b p q = true) :=
      ⟨polar_le_b_antisymm⟩
    exact List.eq_of_perm_of_sorted ((List.mergeSort_perm _ polar_le_b).trans hperm)
      (List.sorted_mergeSort polar_le_b_trans polar_le_b_total _) htarget
  refine ⟨fun tp => by simp [route_ring_bus_points], hsorted, ?_⟩
  unfold route_ring_connections
  rw [hsorted]
  rfl

/-- C7 witness: the scenario at the ground-ring displacement about the
origin. -/
theorem route_ring_connects_sorted_cycle_witness :
    (0:ℝ) < fromMM RADIUS_MM + fromMM GND_RING_DISP_MM
    ∧ route_ring_sorted ⟨0, 0⟩
        [to_cartesian ⟨0, 0⟩ (π / 18) (fromMM RADIUS_MM + fromMM GND_RING_DISP_MM),
         to_cartesian ⟨0, 0⟩ (17 * π / 18) (fromMM RADIUS_MM + fromMM GND_RING_DISP_MM)]
        (fromMM GND_RING_DISP_MM)
      = [(0, fromMM RADIUS_MM + fromMM GND_RING_DISP_MM),
         (π / 18, fromMM RADIUS_MM + fromMM GND_RING_DISP_MM),
         (17 * π / 18, fromMM RADIUS_MM + fromMM GND_RING_DISP_MM),
         (π, fromMM RADIUS_MM + fromMM GND_RING_DISP_MM)] := by
  have h : (0:ℝ) < fromMM RADIUS_MM + fromMM GND_RING_DISP_MM := by
    norm_num [fromMM, RADIUS_MM, GND_RING_DISP_MM]
  exact ⟨h, (route_ring_connects_sorted_cycle ⟨0, 0⟩ (fromMM GND_RING_DISP_MM)
    (fromMM RADIUS_MM + fromMM GND_RING_DISP_MM) rfl h).2.1⟩

/-! Pin/transistor connector lemmas and claim C8. -/

lemma filterMap_ite_eq_map_filter {α β : Type _} (l : List α) (P : α → Prop)
    [DecidablePred P] (g : α → β) :
    l.filterMap (fun a => if P a then some (g a) else none)
      = (l.filter (fun a => decide (P a))).map g := by
  induction l with
  | nil => rfl
  | cons a l ih =>
    by_cases h : P a <;> simp [List.filterMap_cons, List.filter_cons, h, ih]

/-- C8 (amended): for the single transistor pad on the Ground net the via is
dropped at the fixed anchor at angle 0 at the ground bus radius and joined
to the pad by one straight segment, and for the single pin pad on the Power
net the via is dropped at the fixed anchor at angle pi at the power bus
radius and joined to the pad by one straight segment. -/
theorem pin_fet_third_terminal_vias (center : Pt) (gnd pwr : ℤ)
    (fpads ppads : List PadModel) (fp pp : PadModel)
    (hf : fpads.filter (fun p => decide (p.net = gnd)) = [fp])
    (hp : ppads.filter (fun p => decide (p.net = pwr)) = [pp]) :
    route_third_fet center gnd fpads
      = [(to_cartesian center 0 (fromMM (RADIUS_MM + GND_RING_DISP_MM)), fp.pos)]
    ∧ route_third_pin center pwr ppads
      = [(to_cartesian center π (fromMM (RADIUS_MM + PWR_RING_DISP_MM)), pp.pos)] := by
  constructor
  · unfold route_third_fet
    rw [filterMap_ite_eq_map_filter, hf]
    rfl
  · unfold route_third_pin
    rw [filterMap_ite_eq_map_filter, hp]
    rfl

/-- C8 counterexample: with a single fet pad on the ground net, the via is
dropped at the angle-0 anchor, which differs from the angle-pi point the
claim names. -/
theorem fet_ground_via_angle_counterexample :
    route_third_fet ⟨0, 0⟩ 7 [⟨7, ⟨0, 0⟩⟩]
      = [(fet_ground_known_pt ⟨0, 0⟩, (⟨0, 0⟩ : Pt))]
    ∧ fet_ground_known_pt ⟨0, 0⟩
        ≠ to_cartesian ⟨0, 0⟩ π (fromMM (RADIUS_MM + GND_RING_DISP_MM)) := by
  constructor
  · rfl
  · intro h
    have hx := congrArg Pt.x h
    simp only [fet_ground_known_pt, to_cartesian, Real.cos_zero, Real.cos_pi, fromMM,
      RADIUS_MM, GND_RING_DISP_MM] at hx
    norm_num at hx

/-- C8 witness: concrete pad lists with one matching pad per component. -/
theorem pin_fet_third_terminal_vias_witness :
    ([(⟨5, ⟨1, 2⟩⟩ : PadModel), ⟨3, ⟨4, 5⟩⟩].filter (fun p => decide (p.net = 5))
        = [(⟨5, ⟨1, 2⟩⟩ : PadModel)])
    ∧ ([(⟨8, ⟨6, 7⟩⟩ : PadModel)].filter (fun p => decide (p.net = 8))
        = [(⟨8, ⟨6, 7⟩⟩ : PadModel)])
    ∧ route_third_fet ⟨0, 0⟩ 5 [⟨5, ⟨1, 2⟩⟩, ⟨3, ⟨4, 5⟩⟩]
        = [(to_cartesian ⟨0, 0⟩ 0 (fromMM (RADIUS_MM + GND_RING_DISP_MM)), (⟨1, 2⟩ : Pt))]
    ∧ route_third_pin ⟨0, 0⟩ 8 [⟨8, ⟨6, 7⟩⟩]
        = [(to_cartesian ⟨0, 0⟩ π (fromMM (RADIUS_MM + PWR_RING_DISP_MM)), (⟨6, 7⟩ : Pt))] := by
  have hf : ([(⟨5, ⟨1, 2⟩⟩ : PadModel), ⟨3, ⟨4, 5⟩⟩].filter (fun p => decide (p.net = 5))
      = [(⟨5, ⟨1, 2⟩⟩ : PadModel)]) := rfl
  have hp : ([(⟨8, ⟨6, 7⟩⟩ : PadModel)].filter (fun p => decide (p.net = 8))
      = [(⟨8, ⟨6, 7⟩⟩ : PadModel)]) := rfl
  have hmain := pin_fet_third_terminal_vias ⟨0, 0⟩ 5 8 [⟨5, ⟨1, 2⟩⟩, ⟨3, ⟨4, 5⟩⟩]
    [⟨8, ⟨6, 7⟩⟩] ⟨5, ⟨1, 2⟩⟩ ⟨8, ⟨6, 7⟩⟩ hf hp
  exact ⟨hf, hp, hmain.1, hmain.2⟩

/-! Name uniqueness lemmas for the layout generator (claim C3). -/

lemma digitChar_inj_lt : ∀ a < 10, ∀ b < 10, Nat.digitChar a = Nat.digitChar b → a = b := by
  decide

lemma map_digitChar_inj : ∀ l1 l2 : List ℕ, (∀ x ∈ l1, x < 10) → (∀ x ∈ l2, x < 10) →
    l1.map Nat.digitChar = l2.map Nat.digitChar → l1 = l2 := by
  intro l1
  induction l1 with
  | nil =>
    intro l2 _ _ h
    cases l2 with
    | nil => rfl
    | cons b l2' => simp at h
  | cons a l ih =>
    intro l2 h1 h2 h
    cases l2 with
    | nil => simp at h
    | cons b l2' =>
      simp only [List.map_cons, List.cons.injEq] at h
      have hab := digitChar_inj_lt a (h1 a (List.mem_cons_self a l)) b
        (h2 b (List.mem_cons_self b l2')) h.1
      subst hab
      rw [ih l2' (fun x hx => h1 x (List.mem_cons_of_mem _ hx))
        (fun x hx => h2 x (List.mem_cons_of_mem _ hx)) h.2]

lemma natChars_eq (n : ℕ) :
    natChars n = (if n = 0 then [0] else Nat.digits 10 n).reverse.map Nat.digitChar := by
  by_cases h : n = 0
  · subst h
    rfl
  · unfold natChars
    rw [if_neg h, if_neg h]

lemma digits_padded_lt (n : ℕ) : ∀ x ∈ (if n = 0 then [0] else Nat.digits 10 n), x < 10 := by
  intro x hx
  by_cases h : n = 0
  · rw [if_pos h] at hx
    simp at hx
    omega
  · rw [if_neg h] at hx
    exact Nat.digits_lt_base (by norm_num) hx

lemma padded_digits_inj (a b : ℕ)
    (h : (if a = 0 then [0] else Nat.digits 10 a) = (if b = 0 then [0] else Nat.digits 10 b)) :
    a = b := by
  by_cases ha : a = 0 <;> by_cases hb : b = 0
  · omega
  · rw [if_pos ha, if_neg hb] at h
    have hb' := Nat.ofDigits_digits 10 b
    rw [← h] at hb'
    simp [Nat.ofDigits] at hb'
    omega
  · rw [if_neg ha, if_pos hb] at h
    have ha' := Nat.ofDigits_digits 10 a
    rw [h] at ha'
    simp [Nat.ofDigits] at ha'
    omega
  · rw [if_neg ha, if_neg hb] at h
    rw [← Nat.ofDigits_digits 10 a, ← Nat.ofDigits_digits 10 b, h]

lemma natChars_inj : Function.Injective natChars := by
  intro a b h
  rw [natChars_eq, natChars_eq] at h
  have h2 := map_digitChar_inj _ _
    (fun x hx => digits_padded_lt a x (List.mem_reverse.1 hx))
    (fun x hx => digits_padded_lt b x (List.mem_reverse.1 hx)) h
  have h3 := congrArg List.reverse h2
  simp only [List.reverse_reverse] at h3
  exact padded_digits_inj a b h3

lemma natStr_inj : Function.Injective natStr := by
  intro a b h
  exact natChars_inj (congrArg String.data h)

lemma get_resistor_name_inj {i j : ℕ} (h : get_resistor_name i = get_resistor_name j) :
    i = j := by
  apply natStr_inj
  have hd := congrArg String.data h
  simp only [get_resistor_name, String.data_append] at hd
  exact String.ext (List.append_cancel_left hd)

lemma resistor_ne_led (i K j l : ℕ) : get_resistor_name i ≠ get_led_name K j l := by
  intro h
  have hd := congrArg String.data h
  simp only [get_resistor_name, get_led_name, RESISTOR_PREFIX_STR, LED_PREFIX_STR,
    String.data_append] at hd
  simp at hd

lemma get_led_name_inj {K i j i' j' : ℕ} (h : get_led_name K i j = get_led_name K i' j') :
    i * K + j = i' * K + j' := by
  apply natStr_inj
  have hd := congrArg String.data h
  simp only [get_led_name, String.data_append] at hd
  exact String.ext (List.append_cancel_left hd)

lemma line_led_index_inj {K i j i' j' : ℕ} (hj : j < K) (hj' : j' < K)
    (h : i * K + j = i' * K + j') : i = i' ∧ j = j' := by
  have hi : i = i' := by
    rcases lt_trichotomy i i' with hlt | he | hgt
    · exfalso
      have hb : i * K + j < i' * K + j' := by
        calc i * K + j < i * K + K := by omega
          _ = (i + 1) * K := by ring
          _ ≤ i' * K := Nat.mul_le_mul_right K hlt
          _ ≤ i' * K + j' := Nat.le_add_right _ _
      omega
    · exact he
    · exfalso
      have hb : i' * K + j' < i * K + j := by
        calc i' * K + j' < i' * K + K := by omega
          _ = (i' + 1) * K := by ring
          _ ≤ i * K := Nat.mul_le_mul_right K hgt
          _ ≤ i * K + j := Nat.le_add_right _ _
      omega
  subst hi
  omega

/-! Generator closed forms (claim C3). -/

lemma flatMap_congr_left {α β : Type _} {l : List α} {f g : α → List β}
    (h : ∀ a ∈ l, f a = g a) : l.flatMap f = l.flatMap g := by
  induction l with
  | nil => rfl
  | cons a l ih =>
    simp only [List.flatMap_cons, h a (List.mem_cons_self a l),
      ih (fun x hx => h x (List.mem_cons_of_mem _ hx))]

lemma led_entries_spec (K i : ℕ) (step o : ℝ) :
    ∀ (fuel j : ℕ) (a : ℝ),
      (led_entries K i step o fuel j a).1
          = (List.range fuel).map (fun t => (get_led_name K i (j + t), a - t * step, o))
      ∧ (led_entries K i step o fuel j a).2 = a - fuel * step := by
  intro fuel
  induction fuel with
  | zero =>
    intro j a
    refine ⟨rfl, ?_⟩
    simp [led_entries]
  | succ fuel ih =>
    intro j a
    constructor
    · simp only [led_entries]
      rw [(ih (j + 1) (a - step)).1]
      rw [List.range_succ_eq_map, List.map_cons, List.map_map]
      congr 1
      · simp
      · apply List.map_congr_left
        intro t ht
        simp only [Function.comp, Nat.succ_eq_add_one, Prod.mk.injEq]
        refine ⟨?_, ?_, trivial⟩
        · rw [show j + 1 + t = j + (t + 1) from by omega]
        · push_cast
          ring
    · simp only [led_entries]
      rw [(ih (j + 1) (a - step)).2]
      push_cast
      ring

lemma line_entries_spec (K : ℕ) (step o : ℝ) :
    ∀ (fuel i0 : ℕ) (a : ℝ),
      line_entries K step o fuel i0 a
        = (List.range fuel).flatMap (fun l =>
            (get_resistor_name (i0 + l), a - ((l * (1 + K) : ℕ) : ℝ) * step, (0:ℝ)) ::
              (List.range K).map (fun t =>
                (get_led_name K (i0 + l) t,
                  a - (((l * (1 + K) + (t + 1)) : ℕ) : ℝ) * step, o))) := by
  intro fuel
  induction fuel with
  | zero =>
    intro i0 a
    rfl
  | succ fuel ih =>
    intro i0 a
    simp only [line_entries]
    rw [(led_entries_spec K i0 step o K 0 (a - step)).1,
      (led_entries_spec K i0 step o K 0 (a - step)).2]
    rw [ih (i0 + 1) (a - step - K * step)]
    rw [List.range_succ_eq_map, List.flatMap_cons, List.flatMap_map, List.cons_append]
    congr 1
    · simp
    congr 1
    · apply List.map_congr_left
      intro t ht
      simp only [Prod.mk.injEq]
      refine ⟨by simp, ?_, trivial⟩
      push_cast
      ring
    · apply flatMap_congr_left
      intro l hl
      congr 1
      · simp only [Prod.mk.injEq]
        refine ⟨by rw [show i0 + 1 + l = i0 + (l + 1) from by omega], ?_, trivial⟩
        push_cast
        ring
      · apply List.map_congr_left
        intro t ht
        simp only [Prod.mk.injEq]
        refine ⟨by rw [show i0 + 1 + l = i0 + (l + 1) from by omega], ?_, trivial⟩
        push_cast
        ring

/-! Layout generator claim C3. -/

lemma range_mul_flatMap {β : Type _} (n m : ℕ) (g : ℕ → β) :
    (List.range n).flatMap (fun l => (List.range m).map (fun u => g (l * m + u)))
      = (List.range (n * m)).map g := by
  induction n with
  | zero => simp
  | succ n ih =>
    rw [List.range_succ, List.flatMap_append, List.flatMap_singleton, ih]
    rw [show (n + 1) * m = n * m + m from by ring, List.range_add, List.map_append]
    congr 1
    rw [List.map_map]
    apply List.map_congr_left
    intro u hu
    simp [Function.comp]

lemma ill_entries_names (cfg : IllConfig) :
    (ill_entries cfg).map (fun e => e.1)
      = (List.range cfg.n_lines).flatMap (fun l =>
          get_resistor_name l :: (List.range cfg.n_leds_per_line).map
            (fun t => get_led_name cfg.n_leds_per_line l t)) := by
  unfold ill_entries
  rw [line_entries_spec, List.map_flatMap]
  apply flatMap_congr_left
  intro l hl
  simp [List.map_map, Function.comp]

lemma ill_entries_angles (cfg : IllConfig) :
    (ill_entries cfg).map (fun e => e.2.1)
      = (List.range (cfg.n_lines * (1 + cfg.n_leds_per_line))).map
          (fun (v : ℕ) => 0 - (v : ℝ) *
            (2 * π / ((cfg.n_lines * (1 + cfg.n_leds_per_line) : ℕ) : ℝ))) := by
  unfold ill_entries
  rw [line_entries_spec, List.map_flatMap, ← range_mul_flatMap]
  apply flatMap_congr_left
  intro l hl
  rw [List.map_cons, List.map_map]
  rw [show 1 + cfg.n_leds_per_line = cfg.n_leds_per_line + 1 from by omega,
    List.range_succ_eq_map, List.map_cons, List.map_map]
  congr 1


/-- C3: for any config with at least one line, the generator emits exactly
`n_lines * (1 + n_leds_per_line)` named placements with pairwise distinct
names; the running angle starts at 0 and each consecutive pair of emitted
entries is separated by exactly the angular step `2*pi/total`, the angle
strictly decreasing by one step after every element. -/
theorem layout_generator_layout (cfg : IllConfig) (h1 : 1 ≤ cfg.n_lines) :
    (ill_call cfg).length = cfg.n_lines * (1 + cfg.n_leds_per_line)
    ∧ ((ill_entries cfg).map (fun e => e.1)).Nodup
    ∧ ((ill_entries cfg).map (fun e => e.2.1))[0]? = some 0
    ∧ (∀ t, t + 1 < cfg.n_lines * (1 + cfg.n_leds_per_line) →
        ∃ x y, ((ill_entries cfg).map (fun e => e.2.1))[t]? = some x
          ∧ ((ill_entries cfg).map (fun e => e.2.1))[t + 1]? = some y
          ∧ x - y = 2 * π / ((cfg.n_lines * (1 + cfg.n_leds_per_line) : ℕ) : ℝ)
          ∧ y < x) := by
  have hK : 0 < cfg.n_lines * (1 + cfg.n_leds_per_line) := Nat.mul_pos h1 (by omega)
  have hang := ill_entries_angles cfg
  refine ⟨?_, ?_, ?_, ?_⟩
  · have hlen := congrArg List.length hang
    simp only [List.length_map, List.length_range] at hlen
    unfold ill_call
    rw [List.length_map, hlen]
  · rw [ill_entries_names, List.nodup_flatMap]
    constructor
    · intro l hl
      rw [List.nodup_cons]
      constructor
      · intro hmem
        obtain ⟨t, ht, heq⟩ := List.mem_map.1 hmem
        exact resistor_ne_led l cfg.n_leds_per_line l t heq.symm
      · refine List.Nodup.map ?_ (List.nodup_range _)
        intro t t' heq
        have := get_led_name_inj heq
        omega
    · refine (List.pairwise_lt_range _).imp ?_
      intro l l' hll
      intro x hx hx'
      rcases List.mem_cons.1 hx with h1 | h1 <;> rcases List.mem_cons.1 hx' with h2 | h2
      · rw [h1] at h2
        exact absurd (get_resistor_name_inj h2) (Nat.ne_of_lt hll)
      · obtain ⟨t, ht, heq⟩ := List.mem_map.1 h2
        have : get_resistor_name l = get_led_name cfg.n_leds_per_line l' t := by
          rw [← h1, ← heq]
        exact resistor_ne_led _ _ _ _ this
      · obtain ⟨t, ht, heq⟩ := List.mem_map.1 h1
        have : get_resistor_name l' = get_led_name cfg.n_leds_per_line l t := by
          rw [← h2, ← heq]
        exact resistor_ne_led _ _ _ _ this
      · obtain ⟨t, ht, heq⟩ := List.mem_map.1 h1
        obtain ⟨t', ht', heq'⟩ := List.mem_map.1 h2
        have heq2 : get_led_name cfg.n_leds_per_line l t
            = get_led_name cfg.n_leds_per_line l' t' := by
          rw [heq, heq']
        have hidx := get_led_name_inj heq2
        have hii := line_led_index_inj (List.mem_range.1 ht) (List.mem_range.1 ht') hidx
        exact absurd hii.1 (Nat.ne_of_lt hll)
  · rw [hang, List.getElem?_map, List.getElem?_range hK]
    simp
  · intro t ht
    refine ⟨0 - (t : ℝ) * (2 * π / ((cfg.n_lines * (1 + cfg.n_leds_per_line) : ℕ) : ℝ)),
      0 - ((t + 1 : ℕ) : ℝ) * (2 * π / ((cfg.n_lines * (1 + cfg.n_leds_per_line) : ℕ) : ℝ)),
      ?_, ?_, ?_, ?_⟩
    · rw [hang, List.getElem?_map, List.getElem?_range (by omega)]
      rfl
    · rw [hang, List.getElem?_map, List.getElem?_range ht]
      rfl
    · push_cast
      ring
    · have hstep : 0 < 2 * π / ((cfg.n_lines * (1 + cfg.n_leds_per_line) : ℕ) : ℝ) := by
        apply div_pos Real.two_pi_pos
        exact_mod_cast hK
      push_cast at hstep ⊢
      nlinarith [hstep]


/-- C3 witness: the single-line, zero-LED configuration. -/
theorem layout_generator_layout_witness :
    1 ≤ (1:ℕ) ∧
    ((ill_call ⟨1, 0, 30, ⟨100, 100, 0⟩, 0⟩).length = 1 * (1 + 0)
     ∧ ((ill_entries ⟨1, 0, 30, ⟨100, 100, 0⟩, 0⟩).map (fun e => e.1)).Nodup
     ∧ ((ill_entries ⟨1, 0, 30, ⟨100, 100, 0⟩, 0⟩).map (fun e => e.2.1))[0]? = some 0
     ∧ (∀ t, t + 1 < 1 * (1 + 0) →
        ∃ x y, ((ill_entries ⟨1, 0, 30, ⟨100, 100, 0⟩, 0⟩).map (fun e => e.2.1))[t]? = some x
          ∧ ((ill_entries ⟨1, 0, 30, ⟨100, 100, 0⟩, 0⟩).map (fun e => e.2.1))[t + 1]? = some y
          ∧ x - y = 2 * π / ((1 * (1 + 0) : ℕ) : ℝ)
          ∧ y < x)) :=
  ⟨le_refl 1, layout_generator_layout ⟨1, 0, 30, ⟨100, 100, 0⟩, 0⟩ (le_refl 1)⟩
